import Mathlib

/-!
Verification of the `skopt.space.space` module (dimension / transform
subsystem of a search-space library) against its natural-language
specification.  The Python source `src/skopt/space/space.py` is embedded
shallowly: Python scalar values become an inductive `PyVal`, machine floats
become `ℝ` (rationals `ℚ` where the computation is exact), stateful objects
become explicit records, and fallible code returns `Except PyErr`.

The elementary transforms (`Identity`, `LogN`, `Normalize`, the categorical
encoders and `Pipeline`) live in `skopt/space/transformers.py`, which is not
part of the sources; their semantics are modelled from the specification
(§4.1) and are marked as such in their doc comments.
-/

namespace Skopt

/-! ## Python scalar values and `check_dimension` -/

/-- A Python scalar value as it appears in a raw dimension description:
an `int`, a `float`, a `bool` or a `str`. -/
inductive PyVal where
  | int (n : ℤ)
  | float (q : ℚ)
  | bool (b : Bool)
  | str (s : String)
deriving DecidableEq, Repr

/-- `isinstance(d, (str, bool)) or isinstance(d, np.bool_)` from
`check_dimension` (length-2 branch). -/
def isStrOrBool : PyVal → Bool
  | .str _ => true
  | .bool _ => true
  | _ => false

/-- `isinstance(dim, numbers.Integral)`: Python `int` and `bool` are
`numbers.Integral`. -/
def isIntegral : PyVal → Bool
  | .int _ => true
  | .bool _ => true
  | _ => false

/-- `isinstance(dim, numbers.Real)`: `int`, `bool` and `float` are all
`numbers.Real`. -/
def isRealNum : PyVal → Bool
  | .int _ => true
  | .bool _ => true
  | .float _ => true
  | _ => false

/-- `isinstance(dim, int)`: Python `bool` is a subclass of `int`. -/
def isPyInt : PyVal → Bool
  | .int _ => true
  | .bool _ => true
  | _ => false

/-- `isinstance(dim, (float, int))`. -/
def isPyFloatOrInt : PyVal → Bool
  | .int _ => true
  | .bool _ => true
  | .float _ => true
  | _ => false

/-- Which constructor `check_dimension` dispatches to (or the `ValueError`
it raises) for a raw list/tuple description. -/
inductive CheckResult where
  | categorical (elems : List PyVal)
  | integer (args : List PyVal)
  | real (args : List PyVal)
  | valueError
deriving DecidableEq, Repr

/-- The third element of a length-3 description must be one of the two
prior strings (`dimension[2] in ["uniform", "log-uniform"]`). -/
def isPriorStr (v : PyVal) : Bool :=
  v == .str "uniform" || v == .str "log-uniform"

/-- `check_dimension` (src/skopt/space/space.py, lines 43-138) restricted to
raw list/tuple descriptions of Python scalars.  Mirrors the branch structure
of the source: length 1 → Categorical; length 2 → Categorical / Integer /
Real / ValueError; length 3 → Integer / Real / Categorical; length 4 →
Integer / Real / fall-through; length > 3 → Categorical; otherwise
ValueError. -/
def checkDimension (dim : List PyVal) : CheckResult :=
  if dim.length = 1 then .categorical dim
  else if dim.length = 2 then
    if dim.any isStrOrBool then .categorical dim
    else if dim.all isIntegral then .integer dim
    else if dim.any isRealNum then .real dim
    else .valueError
  else if dim.length = 3 then
    if (dim.take 2).any isPyInt && isPriorStr (dim.getD 2 (.int 0)) then
      .integer dim
    else if (dim.take 2).any isPyFloatOrInt && isPriorStr (dim.getD 2 (.int 0)) then
      .real dim
    else .categorical dim
  else if dim.length = 4 then
    if (dim.take 2).any isPyInt && dim.getD 2 (.int 0) == .str "log-uniform"
        && isPyInt (dim.getD 3 (.int 0)) then
      .integer dim
    else if (dim.take 2).any isPyFloatOrInt
        && dim.getD 2 (.int 0) == .str "log-uniform"
        && isPyInt (dim.getD 3 (.int 0)) then
      .real dim
    else .categorical dim
  else if dim.length > 3 then .categorical dim
  else .valueError

end Skopt

namespace Skopt

/-! ### Claim C2 -/

/-- **C2, counterexample.**  The description `(1, 5.0, "uniform")` is routed
to the `Integer` branch by `check_dimension` even though its second element
`5.0` is not a whole number (`numbers.Integral`); under the length-2 rule it
would have been a `Real`.  This falsifies the claim that length-3
descriptions use the same numeric-type rule as length-2 descriptions. -/
theorem checkDim_len3_int_on_nonwhole :
    checkDimension [.int 1, .float 5, .str "uniform"]
      = .integer [.int 1, .float 5, .str "uniform"]
    ∧ ¬ (([PyVal.int 1, PyVal.float 5, PyVal.str "uniform"].take 2).all isIntegral = true)
    ∧ checkDimension [.int 1, .float 5]
      = .real [.int 1, .float 5] := by
  refine ⟨by decide, by decide, by decide⟩

/-- **C2, amended.**  For every length-3 description whose third element is
`"uniform"` or `"log-uniform"`, `check_dimension` returns the `Integer`
branch exactly when at least one (not both) of the first two elements is a
Python `int`; it returns the `Real` branch exactly when neither is an `int`
but at least one is an `int` or `float`; otherwise it falls back to
`Categorical`. -/
theorem checkDim_len3_rule (l : List PyVal)
    (h3 : l.length = 3) (hp : isPriorStr (l.getD 2 (.int 0)) = true) :
    (checkDimension l = .integer l ↔ (l.take 2).any isPyInt = true)
    ∧ (checkDimension l = .real l ↔
        ((l.take 2).any isPyInt = false ∧ (l.take 2).any isPyFloatOrInt = true))
    ∧ (((l.take 2).any isPyFloatOrInt = false) → checkDimension l = .categorical l) := by
  match l, h3 with
  | [a, b, c], _ =>
    have hpc : isPriorStr c = true := by simpa using hp
    cases a <;> cases b <;>
      simp_all [checkDimension, isPyInt, isPyFloatOrInt, isPriorStr]

/-- Witness for `checkDim_len3_rule`: instantiated at `(1, 2, "uniform")`,
where the Integer branch is taken. -/
theorem checkDim_len3_rule_witness :
    checkDimension [.int 1, .int 2, .str "uniform"]
      = .integer [.int 1, .int 2, .str "uniform"] := by
  have h := checkDim_len3_rule [.int 1, .int 2, .str "uniform"]
    (by decide) (by decide)
  exact h.1.mpr (by decide)

/-! ## Dimension state records

A Python `Real` / `Integer` / `Categorical` object is modelled as a record
of its attributes.  The transformer pipeline built by `set_transformer` is
represented symbolically (which elementary transforms with which fitted
parameters), and the sampling distribution `_rvs` likewise. -/

/-- The Python exception classes raised by this module.  They are distinct
classes: `RuntimeError` is not a subclass of `ValueError`. -/
inductive PyErr where
  | valueError
  | runtimeError
  | typeError
  | zeroDivisionError
deriving DecidableEq, Repr

/-- The `prior` attribute of a numeric dimension (validated at construction
to be `"uniform"` or `"log-uniform"`). -/
inductive RPrior where
  | uniform
  | logUniform
deriving DecidableEq, Repr

/-- Symbolic form of the transformer pipeline a numeric dimension's
`set_transformer` installs: `Identity()`, `LogN(base)`,
`Pipeline([Identity(), Normalize(lo, hi, is_int, unbounded)])`, or
`Pipeline([LogN(base), Normalize(lo, hi, unbounded)])`. -/
inductive NumTransformer where
  | identity
  | logN (base : ℕ)
  | pipeIdNorm (lo hi : ℝ) (isInt : Bool) (unbounded : Bool)
  | pipeLogNorm (base : ℕ) (lo hi : ℝ) (unbounded : Bool)

/-- Symbolic form of the transformer a `Categorical.set_transformer`
installs: `CategoricalEncoder()`, `StringEncoder()`, `LabelEncoder()`,
`Pipeline([LabelEncoder(categories), Normalize(0, n-1, is_int=True,
n_categories=n)])`, or `Identity()`. -/
inductive CatTransformer where
  | onehotEnc
  | stringEnc
  | labelEnc
  | pipeLabelNorm (n : ℕ)
  | identityEnc
deriving DecidableEq, Repr

/-- Symbolic form of the `_rvs` sampling distribution: the widened
continuous uniform from `_uniform_inclusive(loc, scale)`, the discrete
`randint(low, high)`, or the weighted `rv_discrete(values=(range(n), prior))`. -/
inductive RVSpec where
  | uniformInclusive (loc scale : ℝ)
  | randint (low high : ℤ)
  | rvDiscrete (n : ℕ) (weights : List ℚ)

/-- Attribute record of a `Real` dimension (floats embedded as `ℝ`; the
`dtype` attribute, a float width, is not modelled since values are exact
reals here). -/
structure RealState where
  low : ℝ
  high : ℝ
  prior : RPrior
  base : ℕ
  name : Option String
  transform_ : String
  rvs : Option RVSpec
  transformer : Option NumTransformer

/-- Attribute record of an `Integer` dimension. -/
structure IntState where
  low : ℤ
  high : ℤ
  prior : RPrior
  base : ℕ
  name : Option String
  transform_ : String
  rvs : Option RVSpec
  transformer : Option NumTransformer

/-- Attribute record of a `Categorical` dimension over category type `α`. -/
structure CatState (α : Type) where
  categories : List α
  prior : Option (List ℚ)
  prior_ : List ℚ
  name : Option String
  transform_ : String
  rvs : Option RVSpec
  transformer : Option CatTransformer

/-- `np.log10(x) / np.log10(base)` as it appears in `set_transformer`
(equal to `log_base x`, proved separately). -/
noncomputable def log10Frac (base : ℕ) (x : ℝ) : ℝ :=
  Real.logb 10 x / Real.logb 10 base

/-- `Real.set_transformer` (src lines 286-327).  Sets `transform_` first,
raises `ValueError` on an unrecognized mode, otherwise replaces the
`_rvs` / `transformer` pair.  Returns the mutated state together with the
raised exception, if any. -/
noncomputable def realSetTransformer (s : RealState) (t : String) :
    RealState × Option PyErr :=
  let s1 := { s with transform_ := t }
  if t ≠ "normalize" ∧ t ≠ "identity" ∧ t ≠ "normalize_unbounded" then
    (s1, some .valueError)
  else if t = "normalize" ∨ t = "normalize_unbounded" then
    -- the `"normalize" in self.transform_` test, on a validated mode string
    let unb := t = "normalize_unbounded"
    ({ s1 with
        rvs := some (.uniformInclusive 0 1),
        transformer := some (if s.prior = .uniform then
            .pipeIdNorm s.low s.high false unb
          else
            .pipeLogNorm s.base (log10Frac s.base s.low)
              (log10Frac s.base s.high) unb) }, none)
  else
    if s.prior = .uniform then
      ({ s1 with
          rvs := some (.uniformInclusive s.low (s.high - s.low)),
          transformer := some .identity }, none)
    else
      ({ s1 with
          rvs := some (.uniformInclusive (log10Frac s.base s.low)
            (log10Frac s.base s.high - log10Frac s.base s.low)),
          transformer := some (.logN s.base) }, none)

/-- `Integer.set_transformer` (src lines 478-514). -/
noncomputable def intSetTransformer (s : IntState) (t : String) :
    IntState × Option PyErr :=
  let s1 := { s with transform_ := t }
  if t ≠ "normalize" ∧ t ≠ "identity" then
    (s1, some .valueError)
  else if t = "normalize" then
    ({ s1 with
        rvs := some (.uniformInclusive 0 1),
        transformer := some (if s.prior = .uniform then
            .pipeIdNorm (s.low : ℝ) (s.high : ℝ) true false
          else
            .pipeLogNorm s.base (log10Frac s.base (s.low : ℝ))
              (log10Frac s.base (s.high : ℝ)) false) }, none)
  else
    if s.prior = .uniform then
      ({ s1 with
          rvs := some (.randint s.low (s.high + 1)),
          transformer := some .identity }, none)
    else
      ({ s1 with
          rvs := some (.uniformInclusive (log10Frac s.base (s.low : ℝ))
            (log10Frac s.base (s.high : ℝ) - log10Frac s.base (s.low : ℝ))),
          transformer := some (.logN s.base) }, none)

/-- The list of transform modes `Categorical.set_transformer` accepts,
in source order. -/
def validCatTransforms : List String :=
  ["identity", "onehot", "string", "normalize", "normalize_unbounded", "label"]

/-- Which transformer `Categorical.set_transformer` builds for a mode
string (src lines 636-659); `none` on an unrecognized mode. -/
def catTrOf (t : String) (n : ℕ) : Option CatTransformer :=
  if t ∈ validCatTransforms then
    some (if t = "onehot" then .onehotEnc
      else if t = "string" then .stringEnc
      else if t = "label" then .labelEnc
      else if t = "normalize" ∨ t = "normalize_unbounded" then .pipeLabelNorm n
      else .identityEnc)
  else none

/-- `Categorical.set_transformer` (src lines 626-666). -/
def catSetTransformer {α : Type} (s : CatState α) (t : String) :
    CatState α × Option PyErr :=
  let s1 := { s with transform_ := t }
  match catTrOf t s.categories.length with
  | none => (s1, some .valueError)
  | some tr =>
      ({ s1 with
          transformer := some tr,
          rvs := some (if t = "normalize" ∨ t = "normalize_unbounded" then
              .uniformInclusive 0 1
            else
              .rvDiscrete s.categories.length s.prior_) }, none)

/-- Python float division `a / b`: raises `ZeroDivisionError` when the
divisor is zero. -/
def pyDiv (a b : ℚ) : Except PyErr ℚ :=
  if b = 0 then .error .zeroDivisionError else .ok (a / b)

/-- `Categorical.__init__` (src lines 607-624): fixes the category tuple,
defaults the transform mode to `"onehot"`, computes the default uniform
weights `np.tile(1. / len(categories), len(categories))` when no prior is
supplied (Python's `1. / 0` raises `ZeroDivisionError`), then calls
`set_transformer`. -/
def catInit {α : Type} (categories : List α) (prior : Option (List ℚ))
    (transform : Option String) (name : Option String) :
    Except PyErr (CatState α) :=
  let t := transform.getD "onehot"
  match (match prior with
         | none => (pyDiv 1 (categories.length : ℚ)).map
             fun w => List.replicate categories.length w
         | some p => .ok p) with
  | .error e => .error e
  | .ok pr =>
      let s0 : CatState α :=
        { categories := categories, prior := prior, prior_ := pr,
          name := name, transform_ := t, rvs := none, transformer := none }
      match catSetTransformer s0 t with
      | (s1, none) => .ok s1
      | (_, some e) => .error e

/-- `Categorical.transformed_size` (src lines 709-716): the one-hot width,
collapsed to 1 for exactly two categories; 1 for every other mode. -/
def catTransformedSize {α : Type} (s : CatState α) : ℕ :=
  if s.transform_ = "onehot" then
    if s.categories.length ≠ 2 then s.categories.length else 1
  else 1

/-! ### Claim C6 -/

/-- **C6.**  For a `Categorical` dimension with transform mode `onehot`,
`transformed_size` is the number of categories, except that it is 1 when
there are exactly two categories; for each of the other transform modes
(`identity`, `string`, `label`, `normalize`, `normalize_unbounded`) it
is 1. -/
theorem catTransformedSize_spec {α : Type} (s : CatState α) :
    (s.transform_ = "onehot" →
      catTransformedSize s =
        if s.categories.length = 2 then 1 else s.categories.length)
    ∧ (s.transform_ ∈ ["identity", "string", "label", "normalize",
        "normalize_unbounded"] → catTransformedSize s = 1) := by
  constructor
  · intro h
    by_cases h2 : s.categories.length = 2 <;> simp [catTransformedSize, h, h2]
  · intro h
    have hne : s.transform_ ≠ "onehot" := by
      simp only [List.mem_cons, List.not_mem_nil, or_false] at h
      rcases h with h | h | h | h | h <;> simp [h]
    simp [catTransformedSize, hne]

/-- Witness for `catTransformedSize_spec`: a three-category one-hot
categorical has transformed size 3, and a two-category one has size 1;
a `label`-mode categorical has size 1. -/
theorem catTransformedSize_spec_witness :
    catTransformedSize (α := ℕ)
      { categories := [1, 2, 3], prior := none, prior_ := [],
        name := none, transform_ := "onehot", rvs := none,
        transformer := none } = 3
    ∧ catTransformedSize (α := ℕ)
      { categories := [1, 2], prior := none, prior_ := [],
        name := none, transform_ := "onehot", rvs := none,
        transformer := none } = 1
    ∧ catTransformedSize (α := ℕ)
      { categories := [1, 2, 3], prior := none, prior_ := [],
        name := none, transform_ := "label", rvs := none,
        transformer := none } = 1 := by
  refine ⟨?_, ?_, ?_⟩
  · exact (catTransformedSize_spec _).1 rfl
  · exact (catTransformedSize_spec _).1 rfl
  · exact (catTransformedSize_spec _).2 (by decide)

/-! ### Claim C7 -/

/-- **C7.**  `set_transformer`, whether it succeeds or raises on an
unrecognized mode string, never changes the dimension's `low`, `high`,
`prior`, `base`, `name`, `categories` or `prior_` attributes; only the
mode string, the transformer pipeline and the sampling distribution are
replaced. -/
theorem setTransformer_frame {α : Type} (sr : RealState) (si : IntState)
    (sc : CatState α) (t : String) :
    ((realSetTransformer sr t).1.low = sr.low
      ∧ (realSetTransformer sr t).1.high = sr.high
      ∧ (realSetTransformer sr t).1.prior = sr.prior
      ∧ (realSetTransformer sr t).1.base = sr.base
      ∧ (realSetTransformer sr t).1.name = sr.name)
    ∧ ((intSetTransformer si t).1.low = si.low
      ∧ (intSetTransformer si t).1.high = si.high
      ∧ (intSetTransformer si t).1.prior = si.prior
      ∧ (intSetTransformer si t).1.base = si.base
      ∧ (intSetTransformer si t).1.name = si.name)
    ∧ ((catSetTransformer sc t).1.categories = sc.categories
      ∧ (catSetTransformer sc t).1.prior_ = sc.prior_
      ∧ (catSetTransformer sc t).1.prior = sc.prior
      ∧ (catSetTransformer sc t).1.name = sc.name) := by
  refine ⟨?_, ?_, ?_⟩
  · unfold realSetTransformer
    split_ifs <;> simp
  · unfold intSetTransformer
    split_ifs <;> simp
  · unfold catSetTransformer
    cases h : catTrOf t sc.categories.length <;> simp

/-! ### Claim C10 -/

/-- **C10.**  Constructing `Categorical(categories)` with an empty category
sequence and no prior raises `ZeroDivisionError` while computing the
default uniform weights `1. / len(categories)` — not a validation error —
so no `Categorical` with zero categories and a default prior can ever be
constructed. -/
theorem catInit_empty_zeroDivision {α : Type} (transform : Option String)
    (name : Option String) :
    catInit ([] : List α) none transform name
      = .error .zeroDivisionError := by
  simp [catInit, pyDiv, Except.map]

/-! ## `distance` (claim C3) -/

/-- `Real.distance` (src lines 379-393): membership test
`self.low <= point <= self.high` for both operands, `RuntimeError` on
failure, `abs(a - b)` otherwise. -/
noncomputable def realDistance (s : RealState) (a b : ℝ) : Except PyErr ℝ :=
  if (s.low ≤ a ∧ a ≤ s.high) ∧ (s.low ≤ b ∧ b ≤ s.high) then .ok |a - b|
  else .error .runtimeError

/-- `Integer.distance` (src lines 563-577). -/
def intDistance (s : IntState) (a b : ℤ) : Except PyErr ℤ :=
  if (s.low ≤ a ∧ a ≤ s.high) ∧ (s.low ≤ b ∧ b ≤ s.high) then .ok |a - b|
  else .error .runtimeError

/-- `Categorical.distance` (src lines 739-756): membership in the category
tuple for both operands, `RuntimeError` on failure, the discrete metric
`1 if a != b else 0` otherwise. -/
def catDistance {α : Type} [DecidableEq α] (s : CatState α) (a b : α) :
    Except PyErr ℕ :=
  if a ∈ s.categories ∧ b ∈ s.categories then .ok (if a ≠ b then 1 else 0)
  else .error .runtimeError

/-- **C3, counterexample.**  `Real(0, 1).distance(2, 0)` raises
`RuntimeError`, which is not a `ValueError`-class exception, falsifying the
claim that out-of-domain `distance` operands produce a `ValueError`-class
failure. -/
theorem distance_raises_runtimeError :
    realDistance
      { low := 0, high := 1, prior := .uniform, base := 10, name := none,
        transform_ := "identity", rvs := none, transformer := none } 2 0
      = .error .runtimeError
    ∧ PyErr.runtimeError ≠ PyErr.valueError := by
  constructor
  · simp only [realDistance]
    rw [if_neg (by norm_num)]
  · decide

/-- **C3, amended.**  For every `Real`, `Integer` or `Categorical`
dimension and operand pair with at least one operand outside the
dimension's domain, `distance` fails with a `RuntimeError` (not a
`ValueError`-class error); with both operands in the domain it returns
`|a - b|` for the numeric dimensions and the discrete metric for
`Categorical`. -/
theorem distance_spec :
    (∀ (s : RealState) (a b : ℝ),
      (¬ ((s.low ≤ a ∧ a ≤ s.high) ∧ (s.low ≤ b ∧ b ≤ s.high)) →
        realDistance s a b = .error .runtimeError)
      ∧ ((s.low ≤ a ∧ a ≤ s.high) → (s.low ≤ b ∧ b ≤ s.high) →
        realDistance s a b = .ok |a - b|))
    ∧ (∀ (s : IntState) (a b : ℤ),
      (¬ ((s.low ≤ a ∧ a ≤ s.high) ∧ (s.low ≤ b ∧ b ≤ s.high)) →
        intDistance s a b = .error .runtimeError)
      ∧ ((s.low ≤ a ∧ a ≤ s.high) → (s.low ≤ b ∧ b ≤ s.high) →
        intDistance s a b = .ok |a - b|))
    ∧ (∀ (α : Type) [DecidableEq α] (s : CatState α) (a b : α),
      (¬ (a ∈ s.categories ∧ b ∈ s.categories) →
        catDistance s a b = .error .runtimeError)
      ∧ (a ∈ s.categories → b ∈ s.categories →
        catDistance s a b = .ok (if a ≠ b then 1 else 0))) := by
  refine ⟨?_, ?_, ?_⟩
  · intro s a b
    exact ⟨fun h => by rw [realDistance, if_neg h],
           fun h1 h2 => by rw [realDistance, if_pos ⟨h1, h2⟩]⟩
  · intro s a b
    exact ⟨fun h => by rw [intDistance, if_neg h],
           fun h1 h2 => by rw [intDistance, if_pos ⟨h1, h2⟩]⟩
  · intro α inst s a b
    exact ⟨fun h => by rw [catDistance, if_neg h],
           fun h1 h2 => by rw [catDistance, if_pos ⟨h1, h2⟩]⟩

/-- Witness for `distance_spec`: `Integer(0, 10).distance(2, 7) == 5`,
`Integer(0, 10).distance(11, 0)` raises `RuntimeError`, and
`Categorical(["a", "b"]).distance("a", "b") == 1`. -/
theorem distance_spec_witness :
    intDistance
      { low := 0, high := 10, prior := .uniform, base := 10, name := none,
        transform_ := "identity", rvs := none, transformer := none } 2 7
      = .ok 5
    ∧ intDistance
      { low := 0, high := 10, prior := .uniform, base := 10, name := none,
        transform_ := "identity", rvs := none, transformer := none } 11 0
      = .error .runtimeError
    ∧ catDistance
      { categories := ["a", "b"], prior := none, prior_ := [1/2, 1/2],
        name := none, transform_ := "onehot", rvs := none,
        transformer := none } "a" "b"
      = .ok 1 := by
  refine ⟨?_, ?_, ?_⟩
  · have h := (distance_spec.2.1
      { low := 0, high := 10, prior := .uniform, base := 10, name := none,
        transform_ := "identity", rvs := none, transformer := none } 2 7).2
      (by norm_num) (by norm_num)
    simpa using h
  · exact (distance_spec.2.1 _ 11 0).1 (by norm_num)
  · have h := (distance_spec.2.2 String
      { categories := ["a", "b"], prior := none, prior_ := [1/2, 1/2],
        name := none, transform_ := "onehot", rvs := none,
        transformer := none } "a" "b").2 (by decide) (by decide)
    simpa using h

/-! ## The unified dimension type, `Space.__getitem__` (C8) and
`Space.__eq__` (C9) -/

/-- One dimension of a `Space`: a `Real`, `Integer` or `Categorical`
instance. -/
inductive SDim (α : Type) where
  | real (s : RealState)
  | integer (s : IntState)
  | cat (s : CatState α)

/-- The `name` attribute of a dimension. -/
def SDim.dimName {α : Type} : SDim α → Option String
  | .real s => s.name
  | .integer s => s.name
  | .cat s => s.name

/-- A lookup key for `Space.__getitem__`: a Python `str` or `int`. -/
inductive SKey where
  | str (s : String)
  | idx (n : ℤ)
deriving DecidableEq, Repr

/-- One iteration's test in `Space.__getitem__._get`
(`dimension_name == dim.name` or `dimension_name == index`): a string key
can only equal a name, an int key can only equal the running index. -/
def keyMatches (k : SKey) (nm : Option String) (i : ℕ) : Bool :=
  match k with
  | .str s => nm == some s
  | .idx n => n == (i : ℤ)

/-- The linear scan of `Space.__getitem__._get` (src lines 1075-1085),
with the running index made explicit. -/
def getSingleAux {α : Type} (k : SKey) : List (SDim α) → ℕ → Option (ℕ × SDim α)
  | [], _ => none
  | d :: rest, i =>
      if keyMatches k d.dimName i then some (i, d)
      else getSingleAux k rest (i + 1)

/-- `Space.__getitem__` for a single `str` or `int` key: returns
`(index, dimension)` for the first match, and the sentinel `(None, None)`
(modelled as `none`) when nothing matches. -/
def spaceGetSingle {α : Type} (dims : List (SDim α)) (k : SKey) :
    Option (ℕ × SDim α) :=
  getSingleAux k dims 0

theorem getSingleAux_eq_none {α : Type} (k : SKey) (l : List (SDim α)) (s : ℕ)
    (h : ∀ i (hi : i < l.length), keyMatches k (l.get ⟨i, hi⟩).dimName (s + i) = false) :
    getSingleAux k l s = none := by
  induction l generalizing s with
  | nil => rfl
  | cons d rest ih =>
      have h0 : keyMatches k d.dimName s = false := by
        simpa using h 0 (Nat.succ_pos _)
      rw [getSingleAux, h0]
      simp only [Bool.false_eq_true, if_false]
      exact ih (s + 1) fun i hi => by
        have := h (i + 1) (Nat.succ_lt_succ hi)
        simpa [Nat.add_assoc, Nat.add_comm 1 i] using this

theorem getSingleAux_eq_some {α : Type} (k : SKey) (l : List (SDim α))
    (s i : ℕ) (hi : i < l.length)
    (hm : keyMatches k (l.get ⟨i, hi⟩).dimName (s + i) = true)
    (hf : ∀ j (hj : j < l.length), j < i →
      keyMatches k (l.get ⟨j, hj⟩).dimName (s + j) = false) :
    getSingleAux k l s = some (s + i, l.get ⟨i, hi⟩) := by
  induction l generalizing s i with
  | nil => exact absurd hi (Nat.not_lt_zero _)
  | cons d rest ih =>
      cases i with
      | zero =>
          simp only [List.get] at hm ⊢
          rw [getSingleAux]
          simpa using hm ▸ (by simp [hm] : _)
      | succ i' =>
          have h0 : keyMatches k d.dimName s = false := by
            simpa using hf 0 (Nat.succ_pos _) (Nat.succ_pos _)
          rw [getSingleAux, h0]
          simp only [Bool.false_eq_true, if_false]
          have hrec := ih (s + 1) i' (Nat.lt_of_succ_lt_succ hi)
            (by simpa [Nat.add_assoc, Nat.add_comm 1 i'] using hm)
            (fun j hj hji => by
              have := hf (j + 1) (Nat.succ_lt_succ hj) (Nat.succ_lt_succ hji)
              simpa [Nat.add_assoc, Nat.add_comm 1 j] using this)
          simpa [Nat.add_assoc, Nat.add_comm 1 i'] using hrec

/-- **C8.**  `Space.__getitem__` with a name-string or index key that
matches no dimension returns the sentinel pair `(None, None)` without
raising; when a key matches (possibly several dimensions), the first match
in dimension order is returned together with its index. -/
theorem spaceGetSingle_spec {α : Type} (dims : List (SDim α)) (k : SKey) :
    ((∀ i (hi : i < dims.length),
        keyMatches k (dims.get ⟨i, hi⟩).dimName i = false) →
      spaceGetSingle dims k = none)
    ∧ (∀ i (hi : i < dims.length),
        keyMatches k (dims.get ⟨i, hi⟩).dimName i = true →
        (∀ j (hj : j < dims.length), j < i →
          keyMatches k (dims.get ⟨j, hj⟩).dimName j = false) →
        spaceGetSingle dims k = some (i, dims.get ⟨i, hi⟩)) := by
  constructor
  · intro h
    exact getSingleAux_eq_none k dims 0 fun i hi => by
      simpa using h i hi
  · intro i hi hm hf
    have := getSingleAux_eq_some k dims 0 i hi (by simpa using hm)
      (fun j hj hji => by simpa using hf j hj hji)
    simpa using this

/-- Witness for `spaceGetSingle_spec`: in a one-dimension space whose
dimension is named `"x"`, looking up `"y"` returns the sentinel and looking
up `"x"` returns index 0 with the dimension. -/
theorem spaceGetSingle_spec_witness :
    spaceGetSingle
      [SDim.cat (α := ℕ)
        { categories := [1, 2], prior := none, prior_ := [1/2, 1/2],
          name := some "x", transform_ := "onehot", rvs := none,
          transformer := none }] (.str "y") = none
    ∧ spaceGetSingle
      [SDim.cat (α := ℕ)
        { categories := [1, 2], prior := none, prior_ := [1/2, 1/2],
          name := some "x", transform_ := "onehot", rvs := none,
          transformer := none }] (.str "x")
      = some (0, SDim.cat
        { categories := [1, 2], prior := none, prior_ := [1/2, 1/2],
          name := some "x", transform_ := "onehot", rvs := none,
          transformer := none }) := by
  constructor
  · exact (spaceGetSingle_spec _ _).1 (by
      intro i hi
      simp only [List.length_cons, List.length_nil] at hi
      cases i with
      | zero => rfl
      | succ n => exact absurd hi (by omega))
  · exact (spaceGetSingle_spec _ _).2 0 (by simp) rfl
      (by intro j hj hji; exact absurd hji (by omega))

/-- `np.allclose` with its default tolerances, on scalars:
`|a - b| <= atol + rtol * |b|` with `atol = 1e-8`, `rtol = 1e-5`. -/
def allcloseR (a b : ℝ) : Prop := |a - b| ≤ 1e-8 + 1e-5 * |b|

/-- `np.allclose` on rational scalars. -/
def allcloseQ (a b : ℚ) : Prop := |a - b| ≤ 1e-8 + 1e-5 * |b|

/-- `np.allclose` on equal-length vectors. -/
def allcloseListQ (u v : List ℚ) : Prop :=
  u.length = v.length ∧ ∀ p ∈ u.zip v, allcloseQ p.1 p.2

/-- `Dimension.__eq__` for each variant: `Real.__eq__` (src 329-334)
compares type, `low`/`high` by `np.allclose`, `prior` and `transform_`;
`Integer.__eq__` (src 516-519) compares type and `low`/`high`;
`Categorical.__eq__` (src 668-671) compares type, the category tuple and
the weight vector by `np.allclose`.  Different variants are never equal
(`type(self) is type(other)` fails). -/
def dimEqP {α : Type} : SDim α → SDim α → Prop
  | .real a, .real b =>
      allcloseR a.low b.low ∧ allcloseR a.high b.high
        ∧ a.prior = b.prior ∧ a.transform_ = b.transform_
  | .integer a, .integer b =>
      allcloseR (a.low : ℝ) (b.low : ℝ) ∧ allcloseR (a.high : ℝ) (b.high : ℝ)
  | .cat a, .cat b => a.categories = b.categories ∧ allcloseListQ a.prior_ b.prior_
  | _, _ => False

/-- `Space.__eq__` (src lines 783-784):
`all([a == b for a, b in zip(self.dimensions, other.dimensions)])` —
note that `zip` truncates to the shorter list and no length comparison is
made. -/
def spaceEqP {α : Type} (d1 d2 : List (SDim α)) : Prop :=
  ∀ p ∈ d1.zip d2, dimEqP p.1 p.2

theorem allcloseR_refl (a : ℝ) : allcloseR a a := by
  unfold allcloseR
  have h1 : |a - a| = 0 := by simp
  rw [h1]
  positivity

theorem zip_take_left_eq {β : Type} (ys : List β) (kk : ℕ) :
    ∀ p ∈ (ys.take kk).zip ys, p.1 = p.2 := by
  induction ys generalizing kk with
  | nil => intro p hp; simp at hp
  | cons y ys ih =>
      cases kk with
      | zero => intro p hp; simp at hp
      | succ kk' =>
          intro p hp
          rw [List.take_succ_cons, List.zip_cons_cons] at hp
          rcases List.mem_cons.mp hp with h | h
          · simp [h]
          · exact ih kk' p h

theorem zip_take_right_eq {β : Type} (ys : List β) (kk : ℕ) :
    ∀ p ∈ ys.zip (ys.take kk), p.1 = p.2 := by
  induction ys generalizing kk with
  | nil => intro p hp; simp at hp
  | cons y ys ih =>
      cases kk with
      | zero => intro p hp; simp at hp
      | succ kk' =>
          intro p hp
          rw [List.take_succ_cons, List.zip_cons_cons] at hp
          rcases List.mem_cons.mp hp with h | h
          · simp [h]
          · exact ih kk' p h

theorem zip_self_eq {β : Type} (l : List β) : ∀ p ∈ l.zip l, p.1 = p.2 := by
  have h := zip_take_left_eq l l.length
  rwa [List.take_length] at h

theorem dimEqP_refl {α : Type} (d : SDim α) : dimEqP d d := by
  cases d with
  | real s => exact ⟨allcloseR_refl _, allcloseR_refl _, rfl, rfl⟩
  | integer s => exact ⟨allcloseR_refl _, allcloseR_refl _⟩
  | cat s =>
      refine ⟨rfl, rfl, ?_⟩
      intro p hp
      rw [zip_self_eq _ p hp]
      unfold allcloseQ
      have h1 : |p.2 - p.2| = 0 := by simp
      rw [h1]
      positivity

/-- **C9.**  `Space.__eq__` compares the dimension lists pairwise with
`zip` and never compares lengths, so whenever the shorter space's dimension
list is an element-wise equal prefix of the other's — in particular a space
with zero dimensions compared against any space — equality holds in both
directions. -/
theorem spaceEq_prefix {α : Type} (xs ys : List (SDim α))
    (hpre : xs = ys.take xs.length) :
    spaceEqP xs ys ∧ spaceEqP ys xs := by
  constructor
  · intro p hp
    rw [hpre] at hp
    rw [zip_take_left_eq ys xs.length p hp]
    exact dimEqP_refl _
  · intro p hp
    rw [hpre] at hp
    rw [zip_take_right_eq ys xs.length p hp]
    exact dimEqP_refl _

/-- Witness for `spaceEq_prefix`: the empty space compares equal to a
one-dimension space in both directions. -/
theorem spaceEq_prefix_witness :
    spaceEqP ([] : List (SDim ℕ))
      [SDim.cat
        { categories := [1, 2], prior := none, prior_ := [1/2, 1/2],
          name := none, transform_ := "onehot", rvs := none,
          transformer := none }]
    ∧ spaceEqP
      [SDim.cat (α := ℕ)
        { categories := [1, 2], prior := none, prior_ := [1/2, 1/2],
          name := none, transform_ := "onehot", rvs := none,
          transformer := none }] [] := by
  exact spaceEq_prefix [] _ rfl

/-! ## Transform semantics and the round-trip invariant (C1)

The elementary transforms live in `skopt/space/transformers.py`, which is
not among the sources; their scalar semantics below are modelled from the
specification (§4.1). -/

/-- Modelled from the spec: forward semantics of the transformer pipelines
a numeric dimension can carry (`transformers.py` is not in the sources).
`Identity` passes through; `LogN(base).transform(x) = log_base(x)`;
`Normalize(lo, hi).transform(x) = (x - lo) / (hi - lo)`; a pipeline applies
its stages left to right. -/
noncomputable def trApply : NumTransformer → ℝ → ℝ
  | .identity, x => x
  | .logN b, x => Real.logb b x
  | .pipeIdNorm lo hi _ _, x => (x - lo) / (hi - lo)
  | .pipeLogNorm b lo hi _, x => (Real.logb b x - lo) / (hi - lo)

/-- Modelled from the spec: inverse semantics (`transformers.py` is not in
the sources).  `LogN` inverts by `base ** y`; `Normalize` clamps the warped
value into `[0, 1]` unless `unbounded`, rescales by `lo + y * (hi - lo)`
and, when `is_int`, rounds to the nearest integer grid point; a pipeline
inverts its stages right to left. -/
noncomputable def trInverse : NumTransformer → ℝ → ℝ
  | .identity, y => y
  | .logN b, y => (b : ℝ) ^ y
  | .pipeIdNorm lo hi isInt unb, y =>
      if isInt then
        ((round (lo + (if unb then y else max 0 (min 1 y)) * (hi - lo)) : ℤ) : ℝ)
      else lo + (if unb then y else max 0 (min 1 y)) * (hi - lo)
  | .pipeLogNorm b lo hi unb, y =>
      (b : ℝ) ^ (lo + (if unb then y else max 0 (min 1 y)) * (hi - lo))

/-- `np.round`: round half to even (banker's rounding), as used by
`Integer.inverse_transform`. -/
noncomputable def npRound (x : ℝ) : ℤ :=
  if x - ⌊x⌋ = 1 / 2 then (if ⌊x⌋ % 2 = 0 then ⌊x⌋ else ⌊x⌋ + 1)
  else round x

/-- Apply an installed transformer, or pass through when none was set. -/
noncomputable def trApplyO : Option NumTransformer → ℝ → ℝ
  | some tr, x => trApply tr x
  | none, x => x

/-- Invert an installed transformer, or pass through when none was set. -/
noncomputable def trInvO : Option NumTransformer → ℝ → ℝ
  | some tr, y => trInverse tr y
  | none, y => y

/-- `Dimension.transform` (src 162-164) for a `Real` dimension: apply the
installed transformer. -/
noncomputable def realTransform (s : RealState) (x : ℝ) : ℝ :=
  trApplyO s.transformer x

/-- `Real.inverse_transform` (src 340-354): the transformer's inverse, then
`np.clip(values, low, high)` and the (here exact) cast to the float dtype. -/
noncomputable def realInverseTransform (s : RealState) (y : ℝ) : ℝ :=
  min (max (trInvO s.transformer y) s.low) s.high

/-- `Dimension.transform` for an `Integer` dimension (the transformer acts
on numbers, so the input is a real here). -/
noncomputable def intTransformR (s : IntState) (x : ℝ) : ℝ :=
  trApplyO s.transformer x

/-- `Integer.inverse_transform` (src 525-541): the transformer's inverse,
then `np.clip(values, low, high)`, then `np.round(...).astype(dtype)`. -/
noncomputable def intInverseTransform (s : IntState) (y : ℝ) : ℤ :=
  npRound (min (max (trInvO s.transformer y) (s.low : ℝ)) (s.high : ℝ))

/-- The `Real` state obtained by constructing a dimension with the given
attributes and configuring it through `set_transformer` (as `__init__`
does, src 254-284). -/
noncomputable def realDimWith (low high : ℝ) (prior : RPrior) (base : ℕ)
    (t : String) : RealState :=
  (realSetTransformer
    { low := low, high := high, prior := prior, base := base,
      name := none, transform_ := "", rvs := none, transformer := none } t).1

/-- The `Integer` state obtained by constructing a dimension with the
given attributes and configuring it through `set_transformer`
(src 440-476). -/
noncomputable def intDimWith (low high : ℤ) (prior : RPrior) (base : ℕ)
    (t : String) : IntState :=
  (intSetTransformer
    { low := low, high := high, prior := prior, base := base,
      name := none, transform_ := "", rvs := none, transformer := none } t).1

/-- `np.clip` at a point inside the bounds is the identity. -/
theorem clip_of_mem (lo hi x : ℝ) (h1 : lo ≤ x) (h2 : x ≤ hi) :
    min (max x lo) hi = x := by
  rw [max_eq_left h1, min_eq_left h2]

theorem npRound_intCast (v : ℤ) : npRound ((v : ℤ) : ℝ) = v := by
  unfold npRound
  rw [Int.floor_intCast]
  rw [if_neg (by norm_num), round_intCast]

/-- The clamp-then-rescale inverse of `Normalize` undoes the forward
rescale at every point of `[lo, hi]`, bounded or not. -/
theorem normCore (lo hi x : ℝ) (hlt : lo < hi) (h1 : lo ≤ x) (h2 : x ≤ hi)
    (unb : Bool) :
    lo + (if unb then (x - lo) / (hi - lo)
          else max 0 (min 1 ((x - lo) / (hi - lo)))) * (hi - lo) = x := by
  have hpos : (0 : ℝ) < hi - lo := sub_pos.mpr hlt
  have hy0 : 0 ≤ (x - lo) / (hi - lo) := div_nonneg (sub_nonneg.mpr h1) hpos.le
  have hy1 : (x - lo) / (hi - lo) ≤ 1 :=
    (div_le_one hpos).mpr (sub_le_sub_right h2 lo)
  have hcl : max 0 (min 1 ((x - lo) / (hi - lo))) = (x - lo) / (hi - lo) := by
    rw [min_eq_right hy1, max_eq_right hy0]
  have key : lo + (x - lo) / (hi - lo) * (hi - lo) = x := by
    rw [div_mul_cancel₀ _ hpos.ne']
    ring
  cases unb
  · simpa [hcl] using key
  · simpa using key

theorem logN_roundTrip (b : ℕ) (x : ℝ) (hb : 1 < b) (hx : 0 < x) :
    trInverse (.logN b) (trApply (.logN b) x) = x := by
  simp only [trApply, trInverse]
  have hbR : (1 : ℝ) < (b : ℝ) := by exact_mod_cast hb
  exact Real.rpow_logb (lt_trans one_pos hbR) (ne_of_gt hbR) hx

theorem pipeIdNorm_roundTrip (lo hi x : ℝ) (isInt unb : Bool)
    (hlt : lo < hi) (h1 : lo ≤ x) (h2 : x ≤ hi) :
    trInverse (.pipeIdNorm lo hi isInt unb)
        (trApply (.pipeIdNorm lo hi isInt unb) x)
      = if isInt then ((round x : ℤ) : ℝ) else x := by
  simp only [trApply, trInverse]
  rw [normCore lo hi x hlt h1 h2 unb]

/-- `np.log10(x) / np.log10(base)` is `log_base x`. -/
theorem log10Frac_eq (b : ℕ) (x : ℝ) (hb : 1 < b) :
    log10Frac b x = Real.logb b x := by
  have hbR : (1 : ℝ) < (b : ℝ) := by exact_mod_cast hb
  have h10 : Real.log 10 ≠ 0 := (Real.log_pos (by norm_num)).ne'
  have hlb : Real.log b ≠ 0 := (Real.log_pos hbR).ne'
  unfold log10Frac Real.logb
  field_simp

theorem pipeLogNorm_roundTrip (b : ℕ) (low high x : ℝ) (unb : Bool)
    (hb : 1 < b) (hlow : 0 < low) (hlt : low < high)
    (h1 : low ≤ x) (h2 : x ≤ high) :
    trInverse (.pipeLogNorm b (log10Frac b low) (log10Frac b high) unb)
        (trApply (.pipeLogNorm b (log10Frac b low) (log10Frac b high) unb) x)
      = x := by
  have hbR : (1 : ℝ) < (b : ℝ) := by exact_mod_cast hb
  have hx : 0 < x := lt_of_lt_of_le hlow h1
  rw [log10Frac_eq b low hb, log10Frac_eq b high hb]
  simp only [trApply, trInverse]
  have hL : Real.logb b low < Real.logb b high := Real.logb_lt_logb hbR hlow hlt
  have h1' : Real.logb b low ≤ Real.logb b x :=
    Real.logb_le_logb_of_le hbR hlow h1
  have h2' : Real.logb b x ≤ Real.logb b high :=
    Real.logb_le_logb_of_le hbR hx h2
  rw [normCore _ _ _ hL h1' h2' unb]
  exact Real.rpow_logb (lt_trans one_pos hbR) (ne_of_gt hbR) hx

/-! ### Categorical transform semantics -/

/-- A warped categorical value: a numeric vector (one-hot, label or
normalized label — all exact rationals), a rendered string, or the raw
category (identity mode). -/
inductive CatWarped (α : Type) where
  | vec (v : List ℚ)
  | str (s : String)
  | raw (c : α)

/-- Modelled from the spec: forward semantics of the categorical encoders
(`transformers.py` is not in the sources).  The one-hot encoder produces
the indicator vector of the category's first position, of width
`len(categories)`, collapsed to one 0/1 coordinate for exactly two fitted
categories; the string encoder renders through `render`; the label encoder
produces the zero-based position; the `normalize` pipeline label-encodes
and rescales `[0, n-1]` linearly to `[0, 1]`. -/
def catApply {α : Type} [DecidableEq α] (cats : List α) (render : α → String) :
    CatTransformer → α → CatWarped α
  | .onehotEnc, c =>
      if cats.length = 2 then
        .vec [if cats.indexOf c = 1 then 1 else 0]
      else
        .vec ((List.range cats.length).map fun j =>
          if j = cats.indexOf c then 1 else 0)
  | .stringEnc, c => .str (render c)
  | .labelEnc, c => .vec [(cats.indexOf c : ℚ)]
  | .pipeLabelNorm n, c =>
      .vec [((cats.indexOf c : ℚ) - 0) / (((n : ℚ) - 1) - 0)]
  | .identityEnc, c => .raw c

/-- Modelled from the spec: inverse semantics of the categorical encoders
(exact inverse lookup; a value outside the fitted vocabulary yields `none`,
the error case).  The `normalize` pipeline inverts `Normalize(0, n-1,
is_int=True, n_categories=n)` — clamp to `[0, 1]`, rescale, round to the
integer grid bounded by `n_categories` — then looks the position up. -/
def catInvApply {α : Type} [DecidableEq α] (cats : List α)
    (render : α → String) : CatTransformer → CatWarped α → Option α
  | .onehotEnc, .vec v =>
      if cats.length = 2 then
        if v.getD 0 0 = 1 then cats.get? 1 else cats.get? 0
      else cats.get? (v.indexOf 1)
  | .stringEnc, .str s => cats.find? fun c => render c == s
  | .labelEnc, .vec v =>
      if round (v.getD 0 0) < 0 then none
      else cats.get? (round (v.getD 0 0)).toNat
  | .pipeLabelNorm n, .vec v =>
      cats.get? (max 0 (min ((n : ℤ) - 1)
        (round (0 + max 0 (min 1 (v.getD 0 0)) * (((n : ℚ) - 1) - 0))))).toNat
  | .identityEnc, .raw c => some c
  | _, _ => none

/-- Apply an installed categorical transformer, or pass the raw category
through when none was set. -/
def catApplyO {α : Type} [DecidableEq α] (cats : List α) (render : α → String) :
    Option CatTransformer → α → CatWarped α
  | some tr, c => catApply cats render tr c
  | none, c => .raw c

/-- Invert an installed categorical transformer (`none` when unset). -/
def catInvApplyO {α : Type} [DecidableEq α] (cats : List α)
    (render : α → String) : Option CatTransformer → CatWarped α → Option α
  | some tr, w => catInvApply cats render tr w
  | none, _ => none

/-- `Dimension.transform` for a configured `Categorical` dimension. -/
def catTransformVal {α : Type} [DecidableEq α] (s : CatState α)
    (render : α → String) (c : α) : CatWarped α :=
  catApplyO s.categories render s.transformer c

/-- `Categorical.inverse_transform` (src 686-695) adds nothing beyond the
transformer's inverse. -/
def catInverseVal {α : Type} [DecidableEq α] (s : CatState α)
    (render : α → String) (w : CatWarped α) : Option α :=
  catInvApplyO s.categories render s.transformer w

/-- The `Categorical` state obtained by constructing a dimension over
`cats` with weight vector `pr` and configuring it through
`set_transformer` (as `__init__` does, src 607-624). -/
def catDimWith {α : Type} (cats : List α) (pr : List ℚ) (t : String) :
    CatState α :=
  (catSetTransformer
    { categories := cats, prior := none, prior_ := pr, name := none,
      transform_ := "", rvs := none, transformer := none } t).1

theorem get?_indexOf_self {α : Type} [DecidableEq α] {cats : List α} {c : α}
    (hc : c ∈ cats) : cats.get? (cats.indexOf c) = some c :=
  List.indexOf_get? hc

/-- The first index holding `1` in the indicator vector of position `i`. -/
theorem indexOf_indicator (n i : ℕ) (hi : i < n) :
    (((List.range n).map fun j => if j = i then (1 : ℚ) else 0).indexOf 1)
      = i := by
  induction n generalizing i with
  | zero => omega
  | succ m ih =>
      rw [List.range_succ_eq_map, List.map_cons, List.map_map]
      cases i with
      | zero =>
          rw [if_pos rfl]
          exact List.indexOf_cons_self 1 _
      | succ i' =>
          rw [if_neg (by omega)]
          have hfun :
              ((fun j => if j = i' + 1 then (1 : ℚ) else 0) ∘ (· + 1))
                = fun j => if j = i' then (1 : ℚ) else 0 := by
            funext j
            simp [Function.comp, Nat.succ_inj]
          rw [hfun, List.indexOf_cons_ne _ (by norm_num)]
          rw [ih i' (by omega)]

theorem onehot_roundTrip {α : Type} [DecidableEq α] (cats : List α)
    (render : α → String) (c : α) (hc : c ∈ cats) :
    catInvApply cats render .onehotEnc (catApply cats render .onehotEnc c)
      = some c := by
  have hi : cats.indexOf c < cats.length := List.indexOf_lt_length.mpr hc
  by_cases h2 : cats.length = 2
  · rw [catApply, if_pos h2, catInvApply, if_pos h2]
    have hlt2 : cats.indexOf c < 2 := h2 ▸ hi
    rcases (by omega : cats.indexOf c = 0 ∨ cats.indexOf c = 1) with h0 | h1
    · rw [h0]
      simp only [List.getD_cons_zero, if_neg (by norm_num : ¬ (0 : ℕ) = 1)]
      rw [if_neg (by norm_num), ← h0]
      exact get?_indexOf_self hc
    · rw [h1]
      simp only [List.getD_cons_zero, if_pos rfl]
      rw [if_pos (by norm_num), ← h1]
      exact get?_indexOf_self hc
  · rw [catApply, if_neg h2, catInvApply, if_neg h2,
      indexOf_indicator cats.length (cats.indexOf c) hi]
    exact get?_indexOf_self hc

theorem string_roundTrip {α : Type} [DecidableEq α] (cats : List α)
    (render : α → String) (hinj : Set.InjOn render {c | c ∈ cats})
    (c : α) (hc : c ∈ cats) :
    catInvApply cats render .stringEnc (catApply cats render .stringEnc c)
      = some c := by
  rw [catApply, catInvApply]
  cases h : cats.find? fun x => render x == render c with
  | none =>
      exfalso
      exact absurd (beq_self_eq_true (render c))
        (by simpa using List.find?_eq_none.mp h c hc)
  | some b =>
      have hmem : b ∈ cats := List.mem_of_find?_eq_some h
      have hpb : render b = render c := by
        have := List.find?_some h
        simpa using this
      rw [hinj hmem hc hpb]

theorem label_roundTrip {α : Type} [DecidableEq α] (cats : List α)
    (render : α → String) (c : α) (hc : c ∈ cats) :
    catInvApply cats render .labelEnc (catApply cats render .labelEnc c)
      = some c := by
  rw [catApply, catInvApply]
  simp only [List.getD_cons_zero, round_natCast]
  rw [if_neg (by omega), Int.toNat_natCast]
  exact get?_indexOf_self hc

theorem labelNorm_roundTrip {α : Type} [DecidableEq α] (cats : List α)
    (render : α → String) (c : α) (hc : c ∈ cats) :
    catInvApply cats render (.pipeLabelNorm cats.length)
        (catApply cats render (.pipeLabelNorm cats.length) c)
      = some c := by
  have hi : cats.indexOf c < cats.length := List.indexOf_lt_length.mpr hc
  rw [catApply, catInvApply]
  simp only [List.getD_cons_zero, sub_zero, zero_add]
  by_cases h1 : cats.length = 1
  · -- a single category: the rescale degenerates to 0/0 = 0
    have hi0 : cats.indexOf c = 0 := by omega
    rw [h1, hi0]
    norm_num
    have := get?_indexOf_self hc
    rw [hi0] at this
    simpa using this
  · have hn2 : 2 ≤ cats.length := by omega
    have hpos : (0 : ℚ) < (cats.length : ℚ) - 1 := by
      have : (2 : ℚ) ≤ (cats.length : ℚ) := by exact_mod_cast hn2
      linarith
    have hile : (cats.indexOf c : ℚ) ≤ (cats.length : ℚ) - 1 := by
      have : (cats.indexOf c : ℚ) + 1 ≤ (cats.length : ℚ) := by
        exact_mod_cast hi
      linarith
    have hy0 : 0 ≤ (cats.indexOf c : ℚ) / ((cats.length : ℚ) - 1) := by
      positivity
    have hy1 : (cats.indexOf c : ℚ) / ((cats.length : ℚ) - 1) ≤ 1 :=
      (div_le_one hpos).mpr hile
    have hclamp :
        max 0 (min 1 ((cats.indexOf c : ℚ) / ((cats.length : ℚ) - 1)))
          = (cats.indexOf c : ℚ) / ((cats.length : ℚ) - 1) := by
      rw [min_eq_right hy1, max_eq_right hy0]
    have hscale :
        (cats.indexOf c : ℚ) / ((cats.length : ℚ) - 1) * ((cats.length : ℚ) - 1)
          = (cats.indexOf c : ℚ) :=
      div_mul_cancel₀ _ hpos.ne'
    rw [hclamp, hscale, round_natCast]
    have hmin : min ((cats.length : ℤ) - 1) (cats.indexOf c : ℤ)
        = (cats.indexOf c : ℤ) := by
      rw [min_eq_right]
      omega
    have hmax : max (0 : ℤ) (cats.indexOf c : ℤ) = (cats.indexOf c : ℤ) := by
      rw [max_eq_right]
      omega
    rw [hmin, hmax, Int.toNat_natCast]
    exact get?_indexOf_self hc

theorem identityEnc_roundTrip {α : Type} [DecidableEq α] (cats : List α)
    (render : α → String) (c : α) :
    catInvApply cats render .identityEnc (catApply cats render .identityEnc c)
      = some c := rfl

/-! ### The states built by `set_transformer`, case by case -/

theorem realDimWith_low (low high : ℝ) (prior : RPrior) (base : ℕ)
    (t : String) : (realDimWith low high prior base t).low = low := by
  unfold realDimWith realSetTransformer
  split_ifs <;> rfl

theorem realDimWith_high (low high : ℝ) (prior : RPrior) (base : ℕ)
    (t : String) : (realDimWith low high prior base t).high = high := by
  unfold realDimWith realSetTransformer
  split_ifs <;> rfl

theorem intDimWith_low (low high : ℤ) (prior : RPrior) (base : ℕ)
    (t : String) : (intDimWith low high prior base t).low = low := by
  unfold intDimWith intSetTransformer
  split_ifs <;> rfl

theorem intDimWith_high (low high : ℤ) (prior : RPrior) (base : ℕ)
    (t : String) : (intDimWith low high prior base t).high = high := by
  unfold intDimWith intSetTransformer
  split_ifs <;> rfl

theorem realDimWith_tr_id_unif (low high : ℝ) (base : ℕ) :
    (realDimWith low high .uniform base "identity").transformer
      = some .identity := by
  simp [realDimWith, realSetTransformer]

theorem realDimWith_tr_id_log (low high : ℝ) (base : ℕ) :
    (realDimWith low high .logUniform base "identity").transformer
      = some (.logN base) := by
  simp [realDimWith, realSetTransformer]

theorem realDimWith_tr_norm_unif (low high : ℝ) (base : ℕ) :
    (realDimWith low high .uniform base "normalize").transformer
      = some (.pipeIdNorm low high false false) := by
  simp [realDimWith, realSetTransformer]

theorem realDimWith_tr_normU_unif (low high : ℝ) (base : ℕ) :
    (realDimWith low high .uniform base "normalize_unbounded").transformer
      = some (.pipeIdNorm low high false true) := by
  simp [realDimWith, realSetTransformer]

theorem realDimWith_tr_norm_log (low high : ℝ) (base : ℕ) :
    (realDimWith low high .logUniform base "normalize").transformer
      = some (.pipeLogNorm base (log10Frac base low) (log10Frac base high)
          false) := by
  simp [realDimWith, realSetTransformer]

theorem realDimWith_tr_normU_log (low high : ℝ) (base : ℕ) :
    (realDimWith low high .logUniform base "normalize_unbounded").transformer
      = some (.pipeLogNorm base (log10Frac base low) (log10Frac base high)
          true) := by
  simp [realDimWith, realSetTransformer]

theorem intDimWith_tr_id_unif (low high : ℤ) (base : ℕ) :
    (intDimWith low high .uniform base "identity").transformer
      = some .identity := by
  simp [intDimWith, intSetTransformer]

theorem intDimWith_tr_id_log (low high : ℤ) (base : ℕ) :
    (intDimWith low high .logUniform base "identity").transformer
      = some (.logN base) := by
  simp [intDimWith, intSetTransformer]

theorem intDimWith_tr_norm_unif (low high : ℤ) (base : ℕ) :
    (intDimWith low high .uniform base "normalize").transformer
      = some (.pipeIdNorm (low : ℝ) (high : ℝ) true false) := by
  simp [intDimWith, intSetTransformer]

theorem intDimWith_tr_norm_log (low high : ℤ) (base : ℕ) :
    (intDimWith low high .logUniform base "normalize").transformer
      = some (.pipeLogNorm base (log10Frac base (low : ℝ))
          (log10Frac base (high : ℝ)) false) := by
  simp [intDimWith, intSetTransformer]

theorem catDimWith_categories {α : Type} (cats : List α) (pr : List ℚ)
    (t : String) : (catDimWith cats pr t).categories = cats := by
  simp only [catDimWith, catSetTransformer]
  cases catTrOf t cats.length <;> rfl

theorem catDimWith_tr_onehot {α : Type} (cats : List α) (pr : List ℚ) :
    (catDimWith cats pr "onehot").transformer = some .onehotEnc := by
  simp [catDimWith, catSetTransformer, catTrOf, validCatTransforms]

theorem catDimWith_tr_string {α : Type} (cats : List α) (pr : List ℚ) :
    (catDimWith cats pr "string").transformer = some .stringEnc := by
  simp [catDimWith, catSetTransformer, catTrOf, validCatTransforms]

theorem catDimWith_tr_label {α : Type} (cats : List α) (pr : List ℚ) :
    (catDimWith cats pr "label").transformer = some .labelEnc := by
  simp [catDimWith, catSetTransformer, catTrOf, validCatTransforms]

theorem catDimWith_tr_identity {α : Type} (cats : List α) (pr : List ℚ) :
    (catDimWith cats pr "identity").transformer = some .identityEnc := by
  simp [catDimWith, catSetTransformer, catTrOf, validCatTransforms]

theorem catDimWith_tr_norm {α : Type} (cats : List α) (pr : List ℚ) :
    (catDimWith cats pr "normalize").transformer
      = some (.pipeLabelNorm cats.length) := by
  simp [catDimWith, catSetTransformer, catTrOf, validCatTransforms]

theorem catDimWith_tr_normU {α : Type} (cats : List α) (pr : List ℚ) :
    (catDimWith cats pr "normalize_unbounded").transformer
      = some (.pipeLabelNorm cats.length) := by
  simp [catDimWith, catSetTransformer, catTrOf, validCatTransforms]

theorem pipeIdNorm_roundTrip_noInt (lo hi x : ℝ) (unb : Bool)
    (hlt : lo < hi) (h1 : lo ≤ x) (h2 : x ≤ hi) :
    trInverse (.pipeIdNorm lo hi false unb)
      (trApply (.pipeIdNorm lo hi false unb) x) = x := by
  rw [pipeIdNorm_roundTrip lo hi x false unb hlt h1 h2]
  rfl

theorem pipeIdNorm_roundTrip_int (lo hi x : ℝ) (unb : Bool)
    (hlt : lo < hi) (h1 : lo ≤ x) (h2 : x ≤ hi) :
    trInverse (.pipeIdNorm lo hi true unb)
      (trApply (.pipeIdNorm lo hi true unb) x) = ((round x : ℤ) : ℝ) := by
  rw [pipeIdNorm_roundTrip lo hi x true unb hlt h1 h2]
  rfl

/-! ### Claim C1 -/

/-- **C1.**  For every dimension variant (`Real`, `Integer`,
`Categorical`), every supported transform mode, and every value in the
dimension's domain, `inverse_transform(transform(v))` returns `v` — exactly
over the real/rational embedding (the "numeric tolerance" of the floating
implementation), and exactly for `Integer` and `Categorical`.  The log
priors additionally need the domain constraints they presuppose
(`0 < low`, base `> 1`), and the string encoder the injective rendering its
exact inverse lookup presupposes.  In particular `normalize_unbounded`
round-trips exactly on in-domain values; its inverse can escape
`[low, high]` only on out-of-range warped input, which in-domain round
trips never produce. -/
theorem roundTrip_spec :
    (∀ (low high : ℝ) (prior : RPrior) (base : ℕ) (t : String),
      (t = "identity" ∨ t = "normalize" ∨ t = "normalize_unbounded") →
      low < high → 1 < base → (prior = .logUniform → 0 < low) →
      ∀ x : ℝ, low ≤ x → x ≤ high →
        realInverseTransform (realDimWith low high prior base t)
          (realTransform (realDimWith low high prior base t) x) = x)
    ∧ (∀ (low high : ℤ) (prior : RPrior) (base : ℕ) (t : String),
      (t = "identity" ∨ t = "normalize") →
      low < high → 1 < base → (prior = .logUniform → 0 < low) →
      ∀ v : ℤ, low ≤ v → v ≤ high →
        intInverseTransform (intDimWith low high prior base t)
          (intTransformR (intDimWith low high prior base t) ((v : ℤ) : ℝ))
          = v)
    ∧ (∀ (α : Type) [DecidableEq α] (cats : List α) (render : α → String)
        (pr : List ℚ) (t : String),
      t ∈ validCatTransforms →
      (t = "string" → Set.InjOn render {c | c ∈ cats}) →
      ∀ c ∈ cats,
        catInverseVal (catDimWith cats pr t) render
          (catTransformVal (catDimWith cats pr t) render c) = some c) := by
  refine ⟨?_, ?_, ?_⟩
  · -- Real
    intro low high prior base t ht hlt hb hlog x h1 h2
    rcases ht with rfl | rfl | rfl
    · cases prior
      · rw [realTransform, realInverseTransform, realDimWith_tr_id_unif,
          trApplyO, trInvO, realDimWith_low, realDimWith_high]
        exact clip_of_mem low high x h1 h2
      · have hx : 0 < x := lt_of_lt_of_le (hlog rfl) h1
        rw [realTransform, realInverseTransform, realDimWith_tr_id_log,
          trApplyO, trInvO, realDimWith_low, realDimWith_high,
          logN_roundTrip base x hb hx]
        exact clip_of_mem low high x h1 h2
    · cases prior
      · rw [realTransform, realInverseTransform, realDimWith_tr_norm_unif,
          trApplyO, trInvO, realDimWith_low, realDimWith_high,
          pipeIdNorm_roundTrip_noInt low high x false hlt h1 h2]
        exact clip_of_mem low high x h1 h2
      · have hlow : 0 < low := hlog rfl
        rw [realTransform, realInverseTransform, realDimWith_tr_norm_log,
          trApplyO, trInvO, realDimWith_low, realDimWith_high,
          pipeLogNorm_roundTrip base low high x false hb hlow hlt h1 h2]
        exact clip_of_mem low high x h1 h2
    · cases prior
      · rw [realTransform, realInverseTransform, realDimWith_tr_normU_unif,
          trApplyO, trInvO, realDimWith_low, realDimWith_high,
          pipeIdNorm_roundTrip_noInt low high x true hlt h1 h2]
        exact clip_of_mem low high x h1 h2
      · have hlow : 0 < low := hlog rfl
        rw [realTransform, realInverseTransform, realDimWith_tr_normU_log,
          trApplyO, trInvO, realDimWith_low, realDimWith_high,
          pipeLogNorm_roundTrip base low high x true hb hlow hlt h1 h2]
        exact clip_of_mem low high x h1 h2
  · -- Integer
    intro low high prior base t ht hlt hb hlog v h1 h2
    have h1R : ((low : ℤ) : ℝ) ≤ ((v : ℤ) : ℝ) := by exact_mod_cast h1
    have h2R : ((v : ℤ) : ℝ) ≤ ((high : ℤ) : ℝ) := by exact_mod_cast h2
    have hltR : ((low : ℤ) : ℝ) < ((high : ℤ) : ℝ) := by exact_mod_cast hlt
    rcases ht with rfl | rfl
    · cases prior
      · rw [intTransformR, intInverseTransform, intDimWith_tr_id_unif,
          trApplyO, trInvO, intDimWith_low, intDimWith_high]
        simp only [trApply, trInverse]
        rw [clip_of_mem _ _ _ h1R h2R, npRound_intCast]
      · have hv : 0 < ((v : ℤ) : ℝ) := by
          have : 0 < v := lt_of_lt_of_le (hlog rfl) h1
          exact_mod_cast this
        rw [intTransformR, intInverseTransform, intDimWith_tr_id_log,
          trApplyO, trInvO, intDimWith_low, intDimWith_high,
          logN_roundTrip base _ hb hv, clip_of_mem _ _ _ h1R h2R,
          npRound_intCast]
    · cases prior
      · rw [intTransformR, intInverseTransform, intDimWith_tr_norm_unif,
          trApplyO, trInvO, intDimWith_low, intDimWith_high,
          pipeIdNorm_roundTrip_int _ _ _ false hltR h1R h2R, round_intCast,
          clip_of_mem _ _ _ h1R h2R, npRound_intCast]
      · have hlowR : (0 : ℝ) < ((low : ℤ) : ℝ) := by
          have := hlog rfl
          exact_mod_cast this
        rw [intTransformR, intInverseTransform, intDimWith_tr_norm_log,
          trApplyO, trInvO, intDimWith_low, intDimWith_high,
          pipeLogNorm_roundTrip base _ _ _ false hb hlowR hltR h1R h2R,
          clip_of_mem _ _ _ h1R h2R, npRound_intCast]
  · -- Categorical
    intro α inst cats render pr t htm hinj c hc
    have htm6 : t = "identity" ∨ t = "onehot" ∨ t = "string"
        ∨ t = "normalize" ∨ t = "normalize_unbounded" ∨ t = "label" := by
      simpa [validCatTransforms] using htm
    rcases htm6 with rfl | rfl | rfl | rfl | rfl | rfl
    · rw [catTransformVal, catInverseVal, catDimWith_tr_identity,
        catDimWith_categories, catApplyO, catInvApplyO]
      exact identityEnc_roundTrip cats render c
    · rw [catTransformVal, catInverseVal, catDimWith_tr_onehot,
        catDimWith_categories, catApplyO, catInvApplyO]
      exact onehot_roundTrip cats render c hc
    · rw [catTransformVal, catInverseVal, catDimWith_tr_string,
        catDimWith_categories, catApplyO, catInvApplyO]
      exact string_roundTrip cats render (hinj rfl) c hc
    · rw [catTransformVal, catInverseVal, catDimWith_tr_norm,
        catDimWith_categories, catApplyO, catInvApplyO]
      exact labelNorm_roundTrip cats render c hc
    · rw [catTransformVal, catInverseVal, catDimWith_tr_normU,
        catDimWith_categories, catApplyO, catInvApplyO]
      exact labelNorm_roundTrip cats render c hc
    · rw [catTransformVal, catInverseVal, catDimWith_tr_label,
        catDimWith_categories, catApplyO, catInvApplyO]
      exact label_roundTrip cats render c hc

/-- Witness for `roundTrip_spec`: a `Real(0, 2)` identity dimension
round-trips `1/2`; an `Integer(0, 3)` normalize dimension round-trips `2`;
a three-category one-hot `Categorical` round-trips its second category. -/
theorem roundTrip_spec_witness :
    realInverseTransform (realDimWith 0 2 .uniform 10 "identity")
      (realTransform (realDimWith 0 2 .uniform 10 "identity") (1 / 2))
      = 1 / 2
    ∧ intInverseTransform (intDimWith 0 3 .uniform 10 "normalize")
      (intTransformR (intDimWith 0 3 .uniform 10 "normalize")
        (((2 : ℤ) : ℝ))) = 2
    ∧ catInverseVal (catDimWith [5, 6, 7] [1/3, 1/3, 1/3] "onehot")
        (fun n => toString n)
        (catTransformVal (catDimWith [5, 6, 7] [1/3, 1/3, 1/3] "onehot")
          (fun n => toString n) (6 : ℕ)) = some 6 := by
  refine ⟨?_, ?_, ?_⟩
  · exact roundTrip_spec.1 0 2 .uniform 10 "identity" (Or.inl rfl)
      (by norm_num) (by norm_num) (fun h => by cases h) (1 / 2)
      (by norm_num) (by norm_num)
  · exact roundTrip_spec.2.1 0 3 .uniform 10 "normalize" (Or.inr rfl)
      (by norm_num) (by norm_num) (fun h => by cases h) 2
      (by norm_num) (by norm_num)
  · exact roundTrip_spec.2.2 ℕ [5, 6, 7] (fun n => toString n)
      [1/3, 1/3, 1/3] "onehot" (by simp [validCatTransforms])
      (fun h => by simp at h) 6 (by simp)

/-! ## `Space.transform` batching (C4) -/

/-- A point coordinate in the original space: a number (for `Real` /
`Integer` dimensions) or a category. -/
inductive PtVal (α : Type) where
  | num (x : ℝ)
  | cat (c : α)

/-- One scalar of the warped space: a number, a rendered string, or a raw
category (identity-transformed categorical). -/
inductive WVal (α : Type) where
  | num (x : ℝ)
  | str (s : String)
  | raw (c : α)

/-- One dimension's (vectorized) transform of one coordinate: the list of
warped scalars this dimension contributes to an output row.  `Real` /
`Integer` contribute one number; a categorical contributes its encoder's
output (rational values embedded into `ℝ`). -/
noncomputable def sdimTransformVec {α : Type} [DecidableEq α]
    (render : α → String) : SDim α → PtVal α → List (WVal α)
  | .real s, .num x => [.num (realTransform s x)]
  | .integer s, .num x => [.num (intTransformR s x)]
  | .cat s, .cat c =>
      match catTransformVal s render c with
      | .vec v => v.map fun (q : ℚ) => .num (q : ℝ)
      | .str t => [.str t]
      | .raw c2 => [.raw c2]
  | _, _ => []

/-- `Dimension.__contains__` per variant (src 364-367, 551-554, 726-727). -/
def sdimMember {α : Type} : SDim α → PtVal α → Prop
  | .real s, .num x => s.low ≤ x ∧ x ≤ s.high
  | .integer s, .num x => (s.low : ℝ) ≤ x ∧ x ≤ (s.high : ℝ)
  | .cat s, .cat c => c ∈ s.categories
  | _, _ => False

/-- `Space.__contains__` (src 1042-1047): membership of each coordinate in
its dimension, over `zip(point, dimensions)`. -/
def spaceMemberP {α : Type} (dims : List (SDim α))
    (row : List (PtVal α)) : Prop :=
  ∀ p ∈ row.zip dims, sdimMember p.2 p.1

/-- `Dimension.transformed_size` per variant (src 179-181, 709-716). -/
def sdimTransformedSize {α : Type} : SDim α → ℕ
  | .real _ => 1
  | .integer _ => 1
  | .cat s => catTransformedSize s

/-- `Space.transformed_n_dims` (src 1024-1027): the sum of the dimensions'
`transformed_size`. -/
def spaceTransformedNDims {α : Type} (dims : List (SDim α)) : ℕ :=
  (dims.map sdimTransformedSize).sum

/-- A categorical dimension is coherently configured when the installed
transformer is the one `set_transformer` builds for its mode string — true
of every state `set_transformer` produces.  Numeric dimensions carry no
such obligation here (their transformed width is 1 regardless). -/
def sdimWf {α : Type} : SDim α → Prop
  | .cat s => ∃ tr, catTrOf s.transform_ s.categories.length = some tr
      ∧ s.transformer = some tr
  | _ => True

/-- `Space.transform` (src 952-984): pack the samples by dimension into
columns, transform each column through its dimension (vectorized), then
`np.hstack` the per-dimension column blocks back into rows of the
`n_samples × transformed_n_dims` output. -/
noncomputable def spaceTransform {α : Type} [DecidableEq α]
    (render : α → String) (dims : List (SDim α))
    (X : List (List (PtVal α))) : List (List (WVal α)) :=
  (List.range X.length).map fun i =>
    ((dims.enum.map fun jd =>
        (X.map fun row => row.getD jd.1 (.num 0)).map
          (sdimTransformVec render jd.2)).map
      fun col => col.getD i []).flatten

theorem getD_map_of_lt {β γ : Type} (l : List β) (f : β → γ) (i : ℕ)
    (hi : i < l.length) (d : γ) (d' : β) :
    (l.map f).getD i d = f (l.getD i d') := by
  rw [List.getD_eq_getElem (l.map f) d (by simpa using hi), List.getElem_map,
    List.getD_eq_getElem l d' hi]

theorem getD_map_range {β : Type} (n i : ℕ) (hi : i < n) (f : ℕ → β)
    (d : β) : ((List.range n).map f).getD i d = f i := by
  rw [List.getD_eq_getElem _ _ (by simpa using hi), List.getElem_map,
    List.getElem_range]

theorem flatten_length_of_sizes {β γ : Type} (l : List β) (f : β → List γ)
    (g : β → ℕ) (h : ∀ b ∈ l, (f b).length = g b) :
    ((l.map f).flatten).length = (l.map g).sum := by
  induction l with
  | nil => rfl
  | cons b bs ih =>
      simp only [List.map_cons, List.flatten_cons, List.length_append,
        List.sum_cons, h b (by simp)]
      rw [ih fun x hx => h x (by simp [hx])]

/-- The transformed width of one coordinate equals the dimension's
`transformed_size`. -/
theorem sdimTransformVec_length {α : Type} [DecidableEq α]
    (render : α → String) (d : SDim α) (v : PtVal α)
    (hwf : sdimWf d) (hmem : sdimMember d v) :
    (sdimTransformVec render d v).length = sdimTransformedSize d := by
  cases d with
  | real s =>
      cases v with
      | num x => rfl
      | cat c => exact hmem.elim
  | integer s =>
      cases v with
      | num x => rfl
      | cat c => exact hmem.elim
  | cat s =>
      cases v with
      | num x => exact hmem.elim
      | cat c =>
          obtain ⟨tr, htr, hst⟩ := hwf
          have hval : s.transform_ ∈ validCatTransforms := by
            by_contra hnot
            rw [catTrOf, if_neg hnot] at htr
            cases htr
          have h6 : s.transform_ = "identity" ∨ s.transform_ = "onehot"
              ∨ s.transform_ = "string" ∨ s.transform_ = "normalize"
              ∨ s.transform_ = "normalize_unbounded"
              ∨ s.transform_ = "label" := by
            simpa [validCatTransforms] using hval
          rcases h6 with h | h | h | h | h | h
          · obtain rfl : tr = .identityEnc := by
              rw [h] at htr
              simp [catTrOf, validCatTransforms] at htr
              exact htr.symm
            simp [sdimTransformVec, catTransformVal, hst, catApplyO,
              catApply, sdimTransformedSize, catTransformedSize, h]
          · obtain rfl : tr = .onehotEnc := by
              rw [h] at htr
              simp [catTrOf, validCatTransforms] at htr
              exact htr.symm
            by_cases h2 : s.categories.length = 2
            · simp [sdimTransformVec, catTransformVal, hst, catApplyO,
                catApply, sdimTransformedSize, catTransformedSize, h, h2]
            · have hv : catTransformVal s render c
                  = .vec ((List.range s.categories.length).map fun j =>
                      if j = s.categories.indexOf c then 1 else 0) := by
                rw [catTransformVal, hst, catApplyO, catApply, if_neg h2]
              simp [sdimTransformVec, hv, sdimTransformedSize,
                catTransformedSize, h, h2]
          · obtain rfl : tr = .stringEnc := by
              rw [h] at htr
              simp [catTrOf, validCatTransforms] at htr
              exact htr.symm
            simp [sdimTransformVec, catTransformVal, hst, catApplyO,
              catApply, sdimTransformedSize, catTransformedSize, h]
          · obtain rfl : tr = .pipeLabelNorm s.categories.length := by
              rw [h] at htr
              simp [catTrOf, validCatTransforms] at htr
              exact htr.symm
            simp [sdimTransformVec, catTransformVal, hst, catApplyO,
              catApply, sdimTransformedSize, catTransformedSize, h]
          · obtain rfl : tr = .pipeLabelNorm s.categories.length := by
              rw [h] at htr
              simp [catTrOf, validCatTransforms] at htr
              exact htr.symm
            simp [sdimTransformVec, catTransformVal, hst, catApplyO,
              catApply, sdimTransformedSize, catTransformedSize, h]
          · obtain rfl : tr = .labelEnc := by
              rw [h] at htr
              simp [catTrOf, validCatTransforms] at htr
              exact htr.symm
            simp [sdimTransformVec, catTransformVal, hst, catApplyO,
              catApply, sdimTransformedSize, catTransformedSize, h]

/-- Coordinate-wise form of `Space.__contains__`. -/
theorem spaceMemberP_getD {α : Type} (dims : List (SDim α))
    (row : List (PtVal α)) (hlen : row.length = dims.length)
    (hm : spaceMemberP dims row) (j : ℕ) (hj : j < dims.length) :
    sdimMember dims[j] (row.getD j (.num 0)) := by
  have hjr : j < row.length := by omega
  have hz : j < (row.zip dims).length := by
    simp only [List.length_zip]
    omega
  have hmem2 := hm ((row.zip dims)[j]) (List.getElem_mem hz)
  rw [List.getElem_zip] at hmem2
  rw [List.getD_eq_getElem row _ hjr]
  exact hmem2

/-- **C4.**  For every `Space` and every input `X` of shape
`(n_samples, n_dims)` whose rows are members of the space,
`Space.transform` returns `n_samples` rows of width `transformed_n_dims`
(the sum of the dimensions' `transformed_size`), and each output row is the
concatenation, in dimension order, of each dimension's transformed block —
a dimension with `transformed_size > 1` occupying that many contiguous
columns. -/
theorem spaceTransform_spec {α : Type} [DecidableEq α] (render : α → String)
    (dims : List (SDim α)) (X : List (List (PtVal α)))
    (hlen : ∀ row ∈ X, row.length = dims.length)
    (hmem : ∀ row ∈ X, spaceMemberP dims row)
    (hwf : ∀ d ∈ dims, sdimWf d) :
    (spaceTransform render dims X).length = X.length
    ∧ (∀ i, i < X.length →
        (spaceTransform render dims X).getD i []
          = (dims.enum.map fun jd =>
              sdimTransformVec render jd.2
                ((X.getD i []).getD jd.1 (.num 0))).flatten)
    ∧ (∀ i, i < X.length →
        ((spaceTransform render dims X).getD i []).length
          = spaceTransformedNDims dims) := by
  have hrow : ∀ i, i < X.length →
      (spaceTransform render dims X).getD i []
        = (dims.enum.map fun jd =>
            sdimTransformVec render jd.2
              ((X.getD i []).getD jd.1 (.num 0))).flatten := by
    intro i hi
    unfold spaceTransform
    rw [getD_map_range X.length i hi]
    rw [List.map_map]
    congr 1
    apply List.map_congr_left
    intro jd _
    show ((X.map fun row => row.getD jd.1 (.num 0)).map
        (sdimTransformVec render jd.2)).getD i []
      = sdimTransformVec render jd.2 ((X.getD i []).getD jd.1 (.num 0))
    rw [getD_map_of_lt (X.map fun row => row.getD jd.1 (.num 0))
        (sdimTransformVec render jd.2) i (by simpa using hi) [] (.num 0),
      getD_map_of_lt X (fun row => row.getD jd.1 (.num 0)) i hi (.num 0) []]
  refine ⟨by simp [spaceTransform], hrow, ?_⟩
  intro i hi
  rw [hrow i hi]
  have hXmem : X.getD i [] ∈ X := by
    rw [List.getD_eq_getElem X [] hi]
    exact List.getElem_mem hi
  rw [flatten_length_of_sizes dims.enum _
      (fun jd => sdimTransformedSize jd.2) ?_]
  · have hsnd : (dims.enum.map fun jd => sdimTransformedSize jd.2)
        = (dims.enum.map Prod.snd).map sdimTransformedSize := by
      rw [List.map_map]
      rfl
    rw [hsnd, List.enum_eq_enumFrom, List.enumFrom_map_snd]
    rfl
  · intro jd hjd
    have hget : dims[jd.1]? = some jd.2 := List.mem_enum_iff_getElem?.mp hjd
    obtain ⟨hj1, hjd2'⟩ := List.getElem?_eq_some.mp hget
    apply sdimTransformVec_length
    · apply hwf
      rw [← hjd2']
      exact List.getElem_mem hj1
    · rw [← hjd2']
      exact spaceMemberP_getD dims (X.getD i []) (hlen _ hXmem)
        (hmem _ hXmem) jd.1 hj1

/-- A concrete two-dimension space (a `Real(0, 1)` identity dimension and a
three-category one-hot `Categorical`) used to witness
`spaceTransform_spec`. -/
noncomputable def wDims : List (SDim ℕ) :=
  [SDim.real
    { low := 0, high := 1, prior := .uniform, base := 10, name := none,
      transform_ := "identity", rvs := none, transformer := some .identity },
   SDim.cat
    { categories := [1, 2, 3], prior := none, prior_ := [1/3, 1/3, 1/3],
      name := none, transform_ := "onehot", rvs := none,
      transformer := some .onehotEnc }]

/-- One in-space sample for `wDims`. -/
noncomputable def wX : List (List (PtVal ℕ)) :=
  [[.num (1 / 2), .cat 2]]

/-- Witness for `spaceTransform_spec`: on the concrete space `wDims` and
sample `wX`, `Space.transform` produces one row of width
`transformed_n_dims` laid out block-by-block in dimension order. -/
theorem spaceTransform_spec_witness :
    (spaceTransform (fun n => toString n) wDims wX).length = wX.length
    ∧ (∀ i, i < wX.length →
        (spaceTransform (fun n => toString n) wDims wX).getD i []
          = (wDims.enum.map fun jd =>
              sdimTransformVec (fun n => toString n) jd.2
                ((wX.getD i []).getD jd.1 (.num 0))).flatten)
    ∧ (∀ i, i < wX.length →
        ((spaceTransform (fun n => toString n) wDims wX).getD i []).length
          = spaceTransformedNDims wDims) := by
  apply spaceTransform_spec
  · intro row hrow
    simp only [wX, List.mem_singleton] at hrow
    subst hrow
    rfl
  · intro row hrow
    simp only [wX, List.mem_singleton] at hrow
    subst hrow
    intro p hp
    simp only [wDims, List.zip_cons_cons, List.zip_nil_right,
      List.mem_cons, List.not_mem_nil, or_false] at hp
    rcases hp with rfl | rfl
    · show (0 : ℝ) ≤ 1 / 2 ∧ (1 / 2 : ℝ) ≤ 1
      constructor <;> norm_num
    · show (2 : ℕ) ∈ [1, 2, 3]
      decide
  · intro d hd
    simp only [wDims, List.mem_cons, List.not_mem_nil, or_false] at hd
    rcases hd with rfl | rfl
    · trivial
    · exact ⟨.onehotEnc, by decide, rfl⟩

end Skopt
